import Mathlib

/-!
Verification of the parsing core of the ROS code-intelligence platform
(backend/app/parsers.py together with backend/app/config.py and
backend/app/models.py): the aggregate `RosModel`, its deduplication and
membership policies, the file filter, the Python AST visitor, the C++ and
launch extractors, and the `parse_project` orchestrator.

Conventions of the shallow embedding:

* File paths are plain strings, already relative to the effective project
  root (`parse_project` only hands the extractors files found under that
  root, so `Path.relative_to` always succeeds and `clean_file` is the
  relative path itself).
* Python `set` fields are modelled as lists used only through membership
  tests and membership-guarded append, `dict` fields as insertion-ordered
  association lists (Python dicts preserve insertion order and update
  values in place).
* External library calls are embedded by their observable result: reading
  plus `ast.parse` yields either a statement sequence, a syntax error, or
  another error (`PyOutcome`); the `ros::init` regex scan yields the list
  of captured names; `ElementTree` parsing yields the `name` attributes of
  the `<node>` elements in document order, or a parse error.
-/

/-- Single-quote character (used by the duplicate-node warning format). -/
def squote : String := String.singleton (Char.ofNat 39)

/-- Boolean test that `pat` is a prefix of `l` (character lists). -/
def hasPrefixL : List Char → List Char → Bool
  | [], _ => true
  | _ :: _, [] => false
  | p :: ps, c :: cs => p == c && hasPrefixL ps cs

/-- Boolean test that `pat` occurs as a contiguous substring of the second
list; embeds the Python `in` operator on strings. -/
def hasInfixL (pat : List Char) : List Char → Bool
  | [] => hasPrefixL pat []
  | c :: cs => hasPrefixL pat (c :: cs) || hasInfixL pat cs

/-- Python `pat in s` on strings. -/
def strIn (pat s : String) : Bool := hasInfixL pat.toList s.toList

/-- Python `str.lower` (ASCII case folding suffices for the paths and
extensions compared here). -/
def strLower (s : String) : String := String.mk (s.toList.map Char.toLower)

/-- Python `str.endswith`. -/
def strEndsWith (s pat : String) : Bool :=
  hasPrefixL pat.toList.reverse s.toList.reverse

/-- Characters of the final path component: everything after the last
slash (Python `PurePath.name` for the normalised relative paths used
here). -/
def afterLastSlash (cs : List Char) : List Char :=
  cs.foldl (fun acc ch => if ch == '/' then [] else acc ++ [ch]) []

/-- Python `PurePath.name`. -/
def fileName (p : String) : String := String.mk (afterLastSlash p.toList)

/-- Index of the last occurrence of `c` in `cs`, if any. -/
def lastIdxOf (c : Char) (cs : List Char) : Option Nat :=
  ((cs.enum.filter (fun q => q.2 == c)).getLast?).map (fun q => q.1)

/-- Python `PurePath.suffix`: the final component's extension including
the dot; CPython returns `name[i:]` for `i` the last dot index when
`0 < i < len(name) - 1` and the empty string otherwise. -/
def pathSuffix (p : String) : String :=
  let name := (fileName p).toList
  match lastIdxOf '.' name with
  | none => ""
  | some i => if 0 < i ∧ i < name.length - 1 then String.mk (name.drop i) else ""

/-- Embedding of `file_path.suffix.lower() in (".launch", ".xml")` from
`RosModel.add_node`. -/
def isLaunchFile (p : String) : Bool :=
  let s := strLower (pathSuffix p)
  s == ".launch" || s == ".xml"

/-- Value carried by an `ast.Constant`: the extractor only ever
distinguishes string constants (for `init_node`) from all other constant
values, which it passes through opaquely. -/
inductive PyConst where
  | str (s : String)
  | nonStr (tag : Nat)
deriving DecidableEq

/-- backend/app/models.py `NodeInfo`. -/
structure NodeInfo where
  name : String
  file : String
deriving DecidableEq

/-- backend/app/models.py `TopicInfo`. The name is the constant taken
from the AST; models.py declares it `str`, and every claim below concerns
string-named topics. -/
structure TopicInfo where
  name : PyConst
  message_type : String
  publishers : List String
  subscribers : List String
deriving DecidableEq

/-- backend/app/models.py `ServiceInfo`. -/
structure ServiceInfo where
  name : PyConst
  type : String
  servers : List String
  clients : List String
deriving DecidableEq

/-- backend/app/parsers.py `RosModel`: the aggregate model. -/
@[ext] structure RosModel where
  nodes : List NodeInfo
  node_names : List String
  topics : List (PyConst × TopicInfo)
  services : List (PyConst × ServiceInfo)
  parameters : List PyConst
  warnings : List String
deriving DecidableEq

/-- The model `RosModel.__init__` creates. -/
def RosModel.empty : RosModel := ⟨[], [], [], [], [], []⟩

/-- Python `set.add`: a no-op when the element is already present. -/
def setAdd {α : Type} [DecidableEq α] (s : List α) (a : α) : List α :=
  if a ∈ s then s else s ++ [a]

/-- Python `d[k]` / `k in d` on an insertion-ordered association list. -/
def dictGet {V : Type} (d : List (PyConst × V)) (k : PyConst) : Option V :=
  (d.find? (fun p => p.1 == k)).map (fun p => p.2)

/-- Python `d[k] = v`: replaces the entry in place when the key is
present, appends at the end otherwise. -/
def dictSet {V : Type} : List (PyConst × V) → PyConst → V → List (PyConst × V)
  | [], k, v => [(k, v)]
  | p :: rest, k, v => if p.1 == k then (k, v) :: rest else p :: dictSet rest k v

/-- The duplicate-node warning string of `RosModel.add_node`. -/
def dupWarning (name kept ignored : String) : String :=
  "Duplicate node " ++ squote ++ name ++ squote ++ " in source files: using "
    ++ kept ++ ", ignoring " ++ ignored

/-- The missing-rate diagnostic of `ROSASTVisitor.finalize`. -/
def rateWarning (n : String) : String :=
  "[" ++ n ++ "] Missing rospy.Rate → possible high CPU usage"

/-- The missing-error-handling diagnostic of `ROSASTVisitor.finalize`. -/
def tryWarning (n : String) : String :=
  "[" ++ n ++ "] No try/except blocks → fragile error handling"

/-- backend/app/parsers.py `RosModel.add_node`. -/
def RosModel.add_node (m : RosModel) (name : String) (file_path : String) : RosModel :=
  let clean_file := file_path
  let is_launch := isLaunchFile file_path
  if name ∈ m.node_names then
    match m.nodes.find? (fun n => n.name == name) with
    | some existing =>
      if is_launch then m
      else { m with warnings := m.warnings ++ [dupWarning name existing.file clean_file] }
    | none =>
      { m with node_names := setAdd m.node_names name
               nodes := m.nodes ++ [⟨name, clean_file⟩] }
  else
    { m with node_names := setAdd m.node_names name
             nodes := m.nodes ++ [⟨name, clean_file⟩] }

/-- backend/app/parsers.py `RosModel.add_pub` (`msg_type or "unknown"`:
the empty string is the only falsy `str`). -/
def RosModel.add_pub (m : RosModel) (topic : PyConst) (msg_type : String) (node : String) : RosModel :=
  let m1 :=
    if (dictGet m.topics topic).isSome then m
    else { m with topics := (dictSet m.topics topic
            ⟨topic, if msg_type = "" then "unknown" else msg_type, [], []⟩) }
  match dictGet m1.topics topic with
  | some info =>
    if node ∈ info.publishers then m1
    else { m1 with topics := (dictSet m1.topics topic
            { info with publishers := info.publishers ++ [node] }) }
  | none => m1

/-- backend/app/parsers.py `RosModel.add_sub`. -/
def RosModel.add_sub (m : RosModel) (topic : PyConst) (msg_type : String) (node : String) : RosModel :=
  let m1 :=
    if (dictGet m.topics topic).isSome then m
    else { m with topics := (dictSet m.topics topic
            ⟨topic, if msg_type = "" then "unknown" else msg_type, [], []⟩) }
  match dictGet m1.topics topic with
  | some info =>
    if node ∈ info.subscribers then m1
    else { m1 with topics := (dictSet m1.topics topic
            { info with subscribers := info.subscribers ++ [node] }) }
  | none => m1

/-- backend/app/parsers.py `RosModel.add_service` (`target` is the server
list when `is_server`, the client list otherwise). -/
def RosModel.add_service (m : RosModel) (service : PyConst) (srv_type : String)
    (node : String) (is_server : Bool) : RosModel :=
  let m1 :=
    if (dictGet m.services service).isSome then m
    else { m with services := (dictSet m.services service
            ⟨service, if srv_type = "" then "unknown" else srv_type, [], []⟩) }
  match dictGet m1.services service with
  | some info =>
    if is_server then
      if node ∈ info.servers then m1
      else { m1 with services := (dictSet m1.services service
              { info with servers := info.servers ++ [node] }) }
    else
      if node ∈ info.clients then m1
      else { m1 with services := (dictSet m1.services service
              { info with clients := info.clients ++ [node] }) }
  | none => m1

/-- backend/app/parsers.py `RosModel.add_param`. -/
def RosModel.add_param (m : RosModel) (param : PyConst) : RosModel :=
  { m with parameters := setAdd m.parameters param }

/-- backend/app/config.py `Settings.IGNORED_PATHS`. -/
def IGNORED_PATHS : List String :=
  ["/build/", "/devel/", "/install/", "/log/", "/__pycache__/", ".pyc", ".pyo"]

/-- backend/app/config.py `Settings.RELEVANT_EXTENSIONS`. -/
def RELEVANT_EXTENSIONS : List String :=
  [".py", ".cpp", ".c", ".h", ".hpp", ".launch", ".xml", ".yaml", ".yml"]

/-- backend/app/parsers.py `is_relevant_source_file`. `sniffGenerated`
abstracts the content sniff: whether the catkin generated-file marker
occurs in the file's text (false also when reading fails — the filter
fails open). -/
def is_relevant_source_file (p : String) (sniffGenerated : Bool) : Bool :=
  let path_str := strLower p
  if IGNORED_PATHS.any (fun ig => strIn ig path_str) then false
  else if pathSuffix p == ".py" && sniffGenerated then false
  else RELEVANT_EXTENSIONS.contains (strLower (pathSuffix p))

/-- Shape of a call expression's function as far as `visit_Call` inspects
it: an `ast.Attribute` whose value is an `ast.Name` (receiver identifier
plus attribute name), or anything else (which never dispatches). -/
inductive PyFunc where
  | attrName (obj attr : String)
  | otherFunc
deriving DecidableEq

/-- Argument expression shapes inspected by the visitor (`_get_type` and
the `ast.Constant` first-argument checks); `attrE none a` is an
`ast.Attribute` whose value is not a plain `ast.Name`. -/
inductive PyArg where
  | const (c : PyConst)
  | nameE (id : String)
  | attrE (base : Option String) (attr : String)
  | otherE
deriving DecidableEq

/-- One AST node relevant to `ROSASTVisitor`, in pre-order.
`ast.NodeVisitor` performs a pre-order walk (each `visit_*` handles its
node and then `generic_visit` recurses into the children), and the
visitor's transition depends only on each node's local shape, so a parsed
file is embedded as the pre-order sequence of its `Call` and `Try`
nodes. -/
inductive PyStmt where
  | call (func : PyFunc) (args : List PyArg)
  | tryBlock
  | other
deriving DecidableEq

/-- `ROSASTVisitor._get_type`. -/
def getType : PyArg → String
  | .nameE id => id
  | .attrE (some base) attr => base ++ "." ++ attr
  | .attrE none attr => "?" ++ "." ++ attr
  | _ => "unknown"

/-- Mutable state of a `ROSASTVisitor`: the shared model reference plus
the per-file accumulators. -/
structure VState where
  model : RosModel
  filepath : String
  current_node : Option String
  pubs : List (PyConst × String)
  subs : List (PyConst × String)
  services : List (PyConst × String × Bool)
  params : List PyConst
  has_rate : Bool
  has_try : Bool

/-- `ROSASTVisitor.__init__`. -/
def initVState (m : RosModel) (filepath : String) : VState :=
  ⟨m, filepath, none, [], [], [], [], false, false⟩

/-- One step of the visitor: `visit_Call` on a call node (the `rospy`
receiver check, then the elif chain on the attribute, each branch guarded
by its argument-shape conditions), `visit_Try` on a try block. -/
def visitStmt (s : VState) : PyStmt → VState
  | .call (.attrName obj attr) args =>
    if obj = "rospy" then
      if attr = "init_node" then
        match args with
        | .const (.str name) :: _ =>
          { s with current_node := some name
                   model := s.model.add_node name s.filepath }
        | _ => s
      else if attr = "Publisher" then
        match args with
        | .const c :: a1 :: _ => { s with pubs := s.pubs ++ [(c, getType a1)] }
        | _ => s
      else if attr = "Subscriber" then
        match args with
        | .const c :: a1 :: _ => { s with subs := s.subs ++ [(c, getType a1)] }
        | _ => s
      else if attr = "Service" then
        match args with
        | .const c :: a1 :: _ => { s with services := s.services ++ [(c, getType a1, true)] }
        | _ => s
      else if attr = "ServiceProxy" then
        match args with
        | .const c :: a1 :: _ => { s with services := s.services ++ [(c, getType a1, false)] }
        | _ => s
      else if attr = "get_param" ∨ attr = "set_param" ∨ attr = "has_param" ∨ attr = "delete_param" then
        match args with
        | .const c :: _ => { s with params := s.params ++ [c] }
        | _ => s
      else if attr = "Rate" then { s with has_rate := true }
      else s
    else s
  | .call .otherFunc _ => s
  | .tryBlock => { s with has_try := true }
  | .other => s

/-- `ROSASTVisitor.visit` over a whole file. -/
def visitStmts (s : VState) (stmts : List PyStmt) : VState :=
  stmts.foldl visitStmt s

/-- `ROSASTVisitor.finalize`. `if not self.current_node` is Python
truthiness: both `None` and the empty string bail out. -/
def finalize (s : VState) : RosModel :=
  match s.current_node with
  | none => s.model
  | some n =>
    if n = "" then s.model
    else
      let m1 := s.pubs.foldl (fun m tm => m.add_pub tm.1 tm.2 n) s.model
      let m2 := s.subs.foldl (fun m tm => m.add_sub tm.1 tm.2 n) m1
      let m3 := s.services.foldl (fun m sv => m.add_service sv.1 sv.2.1 n sv.2.2) m2
      let m4 := s.params.foldl (fun m p => m.add_param p) m3
      let m5 := if s.has_rate then m4 else { m4 with warnings := m4.warnings ++ [rateWarning n] }
      if s.has_try then m5 else { m5 with warnings := m5.warnings ++ [tryWarning n] }

/-- Outcome of reading a Python file and running `ast.parse` on it:
`parse_python_ros_file` branches on exactly these cases. -/
inductive PyOutcome where
  | ok (stmts : List PyStmt)
  | syntaxError (msg : String)
  | otherError (msg : String)

/-- Outcome of `ET.parse` on a launch file: the `name` attributes of the
`<node>` elements in document order (`None` when absent), a parse error,
or another error. -/
inductive LaunchOutcome where
  | ok (names : List (Option String))
  | parseError (msg : String)
  | otherError (msg : String)

/-- One file's bytes, abstracted as each extractor's view of them:
`sniffGenerated` is the generated-marker content sniff, `py` the read +
`ast.parse` outcome, `cppInitNames` the strings captured by the
`ros::init` regex in order (an unreadable file behaves like one with no
matches — the C++ extractor swallows exceptions), `launch` the XML parse
outcome. -/
structure FileContent where
  sniffGenerated : Bool
  py : PyOutcome
  cppInitNames : List String
  launch : LaunchOutcome

/-- backend/app/parsers.py `parse_python_ros_file`. A `SyntaxError` is
caught and only logged — no model warning; any other exception appends a
model warning naming the file's basename. -/
def parse_python_ros_file (filepath : String) (fc : FileContent) (m : RosModel) : RosModel :=
  if !(is_relevant_source_file filepath fc.sniffGenerated) then m
  else
    match fc.py with
    | .ok stmts => finalize (visitStmts (initVState m filepath) stmts)
    | .syntaxError _ => m
    | .otherError e =>
      { m with warnings := m.warnings ++ ["Python parse error in " ++ fileName filepath ++ ": " ++ e] }

/-- backend/app/parsers.py `parse_cpp_ros_file`: registers one node per
regex capture; exceptions are swallowed without a warning. -/
def parse_cpp_ros_file (filepath : String) (fc : FileContent) (m : RosModel) : RosModel :=
  if !([".cpp", ".c", ".h", ".hpp"].contains (strLower (pathSuffix filepath))) then m
  else fc.cppInitNames.foldl (fun m n => m.add_node n filepath) m

/-- backend/app/parsers.py `parse_launch_file`. `ET.ParseError` is caught
and only logged; any other exception appends a model warning. -/
def parse_launch_file (filepath : String) (fc : FileContent) (m : RosModel) : RosModel :=
  if !(strEndsWith (strLower (fileName filepath)) ".launch"
       || strEndsWith (strLower (fileName filepath)) ".xml") then m
  else
    match fc.launch with
    | .ok names =>
      names.foldl (fun m n? => match n? with | some n => m.add_node n filepath | none => m) m
    | .parseError _ => m
    | .otherError e =>
      { m with warnings := m.warnings ++ ["Launch parse error " ++ fileName filepath ++ ": " ++ e] }

/-- The source-phase extension set of `parse_project`. -/
def sourceExts : List String := [".py", ".cpp", ".c", ".h", ".hpp"]

/-- backend/app/parsers.py `parse_project`. The directory walk is
embedded as: `paths` enumerates every file under the effective project
root (relative path strings, in whatever order the filesystem yields
them) and `fc` gives each file's content. `rglob` with a `*[ext]` pattern
keeps the paths ending in that extension; each phase sorts its file list
by path string before processing, so the grouping of the per-extension
`rglob` runs is irrelevant. -/
def parse_project (fc : String → FileContent) (paths : List String) : RosModel :=
  let source_files := paths.filter (fun p => sourceExts.any (fun e => strEndsWith p e))
  let source_files := source_files.filter (fun p => is_relevant_source_file p (fc p).sniffGenerated)
  let source_files := source_files.insertionSort (fun a b => a ≤ b)
  let m := source_files.foldl
    (fun m p => if strLower (pathSuffix p) == ".py"
                then parse_python_ros_file p (fc p) m
                else parse_cpp_ros_file p (fc p) m)
    RosModel.empty
  let launch_files := paths.filter (fun p => strEndsWith p ".launch" || strEndsWith p ".xml")
  let launch_files := launch_files.filter (fun p => !(strIn "package.xml" (strLower (fileName p))))
  let launch_files := launch_files.insertionSort (fun a b => a ≤ b)
  launch_files.foldl (fun m p => parse_launch_file p (fc p) m) m

/-- The node-registration trace of one parse pass: `parse_project`'s
effect on node identity is the sequence of `add_node` calls it performs,
each a (name, relative file path) pair; the two-phase orchestrator
guarantees every source-phase registration precedes every launch-phase
registration. -/
def processRegs (m : RosModel) (regs : List (String × String)) : RosModel :=
  regs.foldl (fun m r => m.add_node r.1 r.2) m

/-- Syntactic test: a call that `visit_Call` treats as a rate-limiter
sighting (`rospy.Rate(...)`). -/
def isRateCall : PyStmt → Bool
  | .call (.attrName obj attr) _ => obj == "rospy" && attr == "Rate"
  | _ => false

/-- Syntactic test: an exception-handling block (`visit_Try`). -/
def isTryStmt : PyStmt → Bool
  | .tryBlock => true
  | _ => false

/-- Whether a file contains a rate-limiting constructor call. -/
def hasRateCall (stmts : List PyStmt) : Bool := stmts.any isRateCall

/-- Whether a file contains an exception-handling block. -/
def hasTryStmt (stmts : List PyStmt) : Bool := stmts.any isTryStmt

/-- Syntactic test: a `rospy.init_node` call whose first argument is a
literal string — exactly the calls that register a node identity. -/
def isStrInitCall : PyStmt → Bool
  | .call (.attrName obj attr) (PyArg.const (PyConst.str _) :: _) =>
      obj == "rospy" && attr == "init_node"
  | _ => false

/-- A bare `rospy.init_node("n")` statement. -/
def initNodeStmt (n : String) : PyStmt :=
  .call (.attrName "rospy" "init_node") [.const (.str n)]

/-! Helper lemmas about the association-list dictionary and `add_node`. -/

theorem dictGet_dictSet_self {V : Type} (d : List (PyConst × V)) (k : PyConst) (v : V) :
    dictGet (dictSet d k v) k = some v := by
  induction d with
  | nil => simp [dictGet, dictSet]
  | cons p rest ih =>
    by_cases h : p.1 = k
    · simp [dictGet, dictSet, h]
    · simpa [dictGet, dictSet, h] using ih

theorem add_pub_lookup (m : RosModel) (t : PyConst) (ty n : String) :
    ∃ info, dictGet (m.add_pub t ty n).topics t = some info ∧ n ∈ info.publishers := by
  cases hg : dictGet m.topics t with
  | none =>
    refine ⟨⟨t, if ty = "" then "unknown" else ty, [n], []⟩, ?_, by simp⟩
    simp [RosModel.add_pub, hg, dictGet_dictSet_self]
  | some info =>
    by_cases hn : n ∈ info.publishers
    · refine ⟨info, ?_, hn⟩
      simp [RosModel.add_pub, hg, hn]
    · refine ⟨⟨info.name, info.message_type, info.publishers ++ [n], info.subscribers⟩, ?_, by simp⟩
      simp [RosModel.add_pub, hg, hn, dictGet_dictSet_self]

theorem add_sub_lookup (m : RosModel) (t : PyConst) (ty n : String) :
    ∃ info, dictGet (m.add_sub t ty n).topics t = some info ∧ n ∈ info.subscribers := by
  cases hg : dictGet m.topics t with
  | none =>
    refine ⟨⟨t, if ty = "" then "unknown" else ty, [], [n]⟩, ?_, by simp⟩
    simp [RosModel.add_sub, hg, dictGet_dictSet_self]
  | some info =>
    by_cases hn : n ∈ info.subscribers
    · refine ⟨info, ?_, hn⟩
      simp [RosModel.add_sub, hg, hn]
    · refine ⟨⟨info.name, info.message_type, info.publishers, info.subscribers ++ [n]⟩, ?_, by simp⟩
      simp [RosModel.add_sub, hg, hn, dictGet_dictSet_self]

theorem add_service_lookup (m : RosModel) (t : PyConst) (ty n : String) (b : Bool) :
    ∃ info, dictGet (m.add_service t ty n b).services t = some info ∧
      n ∈ (if b then info.servers else info.clients) := by
  cases hg : dictGet m.services t with
  | none =>
    cases b with
    | true =>
      refine ⟨⟨t, if ty = "" then "unknown" else ty, [n], []⟩, ?_, by simp⟩
      simp [RosModel.add_service, hg, dictGet_dictSet_self]
    | false =>
      refine ⟨⟨t, if ty = "" then "unknown" else ty, [], [n]⟩, ?_, by simp⟩
      simp [RosModel.add_service, hg, dictGet_dictSet_self]
  | some info =>
    cases b with
    | true =>
      by_cases hn : n ∈ info.servers
      · refine ⟨info, ?_, by simpa using hn⟩
        simp [RosModel.add_service, hg, hn]
      · refine ⟨⟨info.name, info.type, info.servers ++ [n], info.clients⟩, ?_, by simp⟩
        simp [RosModel.add_service, hg, hn, dictGet_dictSet_self]
    | false =>
      by_cases hn : n ∈ info.clients
      · refine ⟨info, ?_, by simpa using hn⟩
        simp [RosModel.add_service, hg, hn]
      · refine ⟨⟨info.name, info.type, info.servers, info.clients ++ [n]⟩, ?_, by simp⟩
        simp [RosModel.add_service, hg, hn, dictGet_dictSet_self]

theorem add_pub_twice (m : RosModel) (t : PyConst) (ty ty2 n : String) :
    (m.add_pub t ty n).add_pub t ty2 n = m.add_pub t ty n := by
  obtain ⟨info, hg, hn⟩ := add_pub_lookup m t ty n
  conv_lhs => rw [RosModel.add_pub]
  simp [hg, hn]

theorem add_sub_twice (m : RosModel) (t : PyConst) (ty ty2 n : String) :
    (m.add_sub t ty n).add_sub t ty2 n = m.add_sub t ty n := by
  obtain ⟨info, hg, hn⟩ := add_sub_lookup m t ty n
  conv_lhs => rw [RosModel.add_sub]
  simp [hg, hn]

theorem add_service_twice (m : RosModel) (t : PyConst) (ty ty2 n : String) (b : Bool) :
    (m.add_service t ty n b).add_service t ty2 n b = m.add_service t ty n b := by
  obtain ⟨info, hg, hn⟩ := add_service_lookup m t ty n b
  conv_lhs => rw [RosModel.add_service]
  cases b with
  | true => simp at hn; simp [hg, hn]
  | false => simp at hn; simp [hg, hn]

theorem add_pub_warnings (m : RosModel) (t : PyConst) (ty n : String) :
    (m.add_pub t ty n).warnings = m.warnings := by
  cases hg : dictGet m.topics t with
  | none => simp [RosModel.add_pub, hg, dictGet_dictSet_self]
  | some info => by_cases hn : n ∈ info.publishers <;> simp [RosModel.add_pub, hg, hn]

theorem add_sub_warnings (m : RosModel) (t : PyConst) (ty n : String) :
    (m.add_sub t ty n).warnings = m.warnings := by
  cases hg : dictGet m.topics t with
  | none => simp [RosModel.add_sub, hg, dictGet_dictSet_self]
  | some info => by_cases hn : n ∈ info.subscribers <;> simp [RosModel.add_sub, hg, hn]

/-- C8: for every model state, every topic or service name, every node
name and every role (publisher, subscriber, server, client), adding the
same node to the same role twice leaves the model identical to adding it
once — role-membership insertion is idempotent and never duplicates an
entry (the second registration may even carry a different type string,
which also changes nothing). -/
theorem C8_role_membership_idempotent (m : RosModel) (t s : PyConst)
    (ty ty2 sty sty2 n : String) :
    ((m.add_pub t ty n).add_pub t ty2 n = m.add_pub t ty n) ∧
    ((m.add_sub t ty n).add_sub t ty2 n = m.add_sub t ty n) ∧
    ((m.add_service s sty n true).add_service s sty2 n true = m.add_service s sty n true) ∧
    ((m.add_service s sty n false).add_service s sty2 n false = m.add_service s sty n false) :=
  ⟨add_pub_twice m t ty ty2 n, add_sub_twice m t ty ty2 n,
   add_service_twice m s sty sty2 n true, add_service_twice m s sty sty2 n false⟩

/-- C5: for every model state in which topic `T` already exists (its
stored record is `info`, so its stored message type is whatever type the
topic was first created with), a later `add_pub` or `add_sub` for the
same topic name with any type string `Y` leaves the stored message type
(and the name, and the other role set) unchanged, and does so silently:
the warning list is also unchanged — first type wins, with no warning. -/
theorem C5_first_type_wins (m : RosModel) (T : PyConst) (info : TopicInfo) (Y n : String)
    (h : dictGet m.topics T = some info) :
    (∃ infoP, dictGet (m.add_pub T Y n).topics T = some infoP ∧
       infoP.message_type = info.message_type ∧ infoP.name = info.name ∧
       infoP.subscribers = info.subscribers) ∧
    (∃ infoS, dictGet (m.add_sub T Y n).topics T = some infoS ∧
       infoS.message_type = info.message_type ∧ infoS.name = info.name ∧
       infoS.publishers = info.publishers) ∧
    ((m.add_pub T Y n).warnings = m.warnings) ∧
    ((m.add_sub T Y n).warnings = m.warnings) := by
  refine ⟨?_, ?_, add_pub_warnings m T Y n, add_sub_warnings m T Y n⟩
  · by_cases hn : n ∈ info.publishers
    · exact ⟨info, by simp [RosModel.add_pub, h, hn], rfl, rfl, rfl⟩
    · refine ⟨⟨info.name, info.message_type, info.publishers ++ [n], info.subscribers⟩,
        ?_, rfl, rfl, rfl⟩
      simp [RosModel.add_pub, h, hn, dictGet_dictSet_self]
  · by_cases hn : n ∈ info.subscribers
    · exact ⟨info, by simp [RosModel.add_sub, h, hn], rfl, rfl, rfl⟩
    · refine ⟨⟨info.name, info.message_type, info.publishers, info.subscribers ++ [n]⟩,
        ?_, rfl, rfl, rfl⟩
      simp [RosModel.add_sub, h, hn, dictGet_dictSet_self]

/-- Witness for C5 at a concrete input: `/chatter` is created with type
`X` by node `A`; a later publication by node `B` with type `Y` keeps the
stored type `X` and appends no warning. -/
theorem C5_first_type_wins_witness :
    dictGet (RosModel.empty.add_pub (PyConst.str "/chatter") "X" "A").topics
        (PyConst.str "/chatter") =
      some ⟨PyConst.str "/chatter", "X", ["A"], []⟩ ∧
    ((∃ infoP, dictGet ((RosModel.empty.add_pub (PyConst.str "/chatter") "X" "A").add_pub
          (PyConst.str "/chatter") "Y" "B").topics (PyConst.str "/chatter") = some infoP ∧
       infoP.message_type = "X" ∧ infoP.name = PyConst.str "/chatter" ∧
       infoP.subscribers = ([] : List String)) ∧
     (∃ infoS, dictGet ((RosModel.empty.add_pub (PyConst.str "/chatter") "X" "A").add_sub
          (PyConst.str "/chatter") "Y" "B").topics (PyConst.str "/chatter") = some infoS ∧
       infoS.message_type = "X" ∧ infoS.name = PyConst.str "/chatter" ∧
       infoS.publishers = ["A"]) ∧
     (((RosModel.empty.add_pub (PyConst.str "/chatter") "X" "A").add_pub
          (PyConst.str "/chatter") "Y" "B").warnings
        = (RosModel.empty.add_pub (PyConst.str "/chatter") "X" "A").warnings) ∧
     (((RosModel.empty.add_pub (PyConst.str "/chatter") "X" "A").add_sub
          (PyConst.str "/chatter") "Y" "B").warnings
        = (RosModel.empty.add_pub (PyConst.str "/chatter") "X" "A").warnings)) :=
  ⟨rfl, C5_first_type_wins _ _ ⟨PyConst.str "/chatter", "X", ["A"], []⟩ "Y" "B" rfl⟩

theorem add_node_fresh (m : RosModel) (N F : String) (h : N ∉ m.node_names) :
    m.add_node N F =
      { m with node_names := m.node_names ++ [N], nodes := m.nodes ++ [⟨N, F⟩] } := by
  simp [RosModel.add_node, setAdd, h]

theorem add_node_dup (m : RosModel) (N F : String) (e : NodeInfo)
    (hmem : N ∈ m.node_names) (hfind : m.nodes.find? (fun x => x.name == N) = some e) :
    m.add_node N F =
      if isLaunchFile F then m
      else { m with warnings := m.warnings ++ [dupWarning N e.file F] } := by
  simp [RosModel.add_node, hmem, hfind]

/-- C3 counterexample: a relevant scripting-language file whose content
fails `ast.parse` (`PyOutcome.syntaxError`) produces an EMPTY warning
list — not the single warning naming the file that the claim asserts:
`parse_python_ros_file` catches `SyntaxError` separately and only logs
it. -/
theorem C3_syntax_error_counterexample :
    (parse_python_ros_file "bad.py"
        ⟨false, PyOutcome.syntaxError "invalid syntax", [], LaunchOutcome.ok []⟩
        RosModel.empty).warnings = [] := rfl

/-- C3 amended: a syntax error in a scripting-language file is caught
(the per-file parse returns instead of raising, so the pass continues
with the remaining files) and the failing file contributes zero facts —
the model is returned completely unchanged — but NO warning entry is
appended to the model; only non-SyntaxError failures append one. -/
theorem C3_syntax_error_amended (p msg : String) (fc : FileContent) (m : RosModel)
    (h : fc.py = PyOutcome.syntaxError msg) :
    parse_python_ros_file p fc m = m := by
  unfold parse_python_ros_file
  rw [h]
  split <;> rfl

/-- Witness for C3 amended at a concrete input. -/
theorem C3_syntax_error_amended_witness :
    (⟨false, PyOutcome.syntaxError "invalid syntax", [], LaunchOutcome.ok []⟩ :
        FileContent).py = PyOutcome.syntaxError "invalid syntax" ∧
    parse_python_ros_file "bad.py"
        ⟨false, PyOutcome.syntaxError "invalid syntax", [], LaunchOutcome.ok []⟩
        RosModel.empty = RosModel.empty :=
  ⟨rfl, C3_syntax_error_amended "bad.py" "invalid syntax" _ RosModel.empty rfl⟩

/-- C4 counterexample: registering node `talker` from source file `a.py`
and then re-registering the same name from the SAME file appends a
duplicate-node warning (naming `a.py` as both the kept and the discarded
file) — the claim asserts no new warning entry is produced. -/
theorem C4_same_file_counterexample :
    ((RosModel.empty.add_node "talker" "a.py").add_node "talker" "a.py").warnings.length
      = 1 := rfl

/-- C4 amended: re-registering a node name that already has a Node entity
never adds a second entity and never mutates the existing one; when the
re-registration comes from a launch-suffixed path it is completely
silent, but when it comes from a source path — including the very file
that first registered the name — it appends a duplicate-node warning
naming that file as both kept and discarded. -/
theorem C4_same_file_amended (m : RosModel) (N F : String) (e : NodeInfo)
    (hmem : N ∈ m.node_names) (hfind : m.nodes.find? (fun x => x.name == N) = some e) :
    ((m.add_node N F).nodes = m.nodes) ∧
    (isLaunchFile F = true → m.add_node N F = m) ∧
    (isLaunchFile F = false →
      m.add_node N F = { m with warnings := m.warnings ++ [dupWarning N e.file F] }) := by
  rw [add_node_dup m N F e hmem hfind]
  cases h : isLaunchFile F <;> simp [h]

/-- Witness for C4 amended at a concrete input. -/
theorem C4_same_file_amended_witness :
    "talker" ∈ (RosModel.empty.add_node "talker" "a.py").node_names ∧
    (RosModel.empty.add_node "talker" "a.py").nodes.find? (fun x => x.name == "talker")
      = some ⟨"talker", "a.py"⟩ ∧
    ((((RosModel.empty.add_node "talker" "a.py").add_node "talker" "a.py").nodes
        = (RosModel.empty.add_node "talker" "a.py").nodes) ∧
     (isLaunchFile "a.py" = true →
        (RosModel.empty.add_node "talker" "a.py").add_node "talker" "a.py"
          = RosModel.empty.add_node "talker" "a.py") ∧
     (isLaunchFile "a.py" = false →
        (RosModel.empty.add_node "talker" "a.py").add_node "talker" "a.py"
          = { RosModel.empty.add_node "talker" "a.py" with
              warnings := (RosModel.empty.add_node "talker" "a.py").warnings
                ++ [dupWarning "talker" "a.py" "a.py"] })) :=
  ⟨by decide, rfl, C4_same_file_amended _ "talker" "a.py" ⟨"talker", "a.py"⟩ (by decide) rfl⟩

theorem visitStmt_flags (s : VState) (st : PyStmt) :
    (visitStmt s st).filepath = s.filepath ∧
    (visitStmt s st).has_rate = (s.has_rate || isRateCall st) ∧
    (visitStmt s st).has_try = (s.has_try || isTryStmt st) := by
  cases st with
  | call f args =>
    cases f with
    | attrName obj attr =>
      simp only [visitStmt]
      split_ifs <;> first
        | (split <;> simp_all [isRateCall, isTryStmt])
        | simp_all [isRateCall, isTryStmt]
      all_goals (rintro rfl; simp_all)
    | otherFunc => simp [visitStmt, isRateCall, isTryStmt]
  | tryBlock => simp [visitStmt, isRateCall, isTryStmt]
  | other => simp [visitStmt, isRateCall, isTryStmt]

theorem visitStmt_update (s : VState) (c : Option String) (mm : RosModel) (st : PyStmt)
    (h : isStrInitCall st = false) :
    visitStmt { s with current_node := c, model := mm } st
      = { visitStmt s st with current_node := c, model := mm } := by
  cases st with
  | call f args =>
    cases f with
    | attrName obj attr =>
      simp only [visitStmt]
      split_ifs <;> first
        | (split <;> simp_all [isStrInitCall])
        | simp_all [isStrInitCall]
    | otherFunc => rfl
  | tryBlock => rfl
  | other => rfl

theorem visitStmts_update (s : VState) (c : Option String) (mm : RosModel)
    (stmts : List PyStmt) (h : stmts.all (fun st => !(isStrInitCall st)) = true) :
    visitStmts { s with current_node := c, model := mm } stmts
      = { visitStmts s stmts with current_node := c, model := mm } := by
  induction stmts generalizing s with
  | nil => rfl
  | cons st rest ih =>
    simp only [List.all_cons, Bool.and_eq_true, Bool.not_eq_true'] at h
    show visitStmts (visitStmt { s with current_node := c, model := mm } st) rest = _
    rw [visitStmt_update s c mm st h.1]
    exact ih (visitStmt s st) h.2

theorem visitStmts_cons (s : VState) (st : PyStmt) (rest : List PyStmt) :
    visitStmts s (st :: rest) = visitStmts (visitStmt s st) rest := rfl

theorem visitStmts_flags (s : VState) (stmts : List PyStmt) :
    (visitStmts s stmts).filepath = s.filepath ∧
    (visitStmts s stmts).has_rate = (s.has_rate || hasRateCall stmts) ∧
    (visitStmts s stmts).has_try = (s.has_try || hasTryStmt stmts) := by
  induction stmts generalizing s with
  | nil => simp [visitStmts, hasRateCall, hasTryStmt]
  | cons st rest ih =>
    rw [visitStmts_cons]
    obtain ⟨h1, h2, h3⟩ := ih (visitStmt s st)
    obtain ⟨g1, g2, g3⟩ := visitStmt_flags s st
    refine ⟨h1.trans g1, ?_, ?_⟩
    · rw [h2, g2]
      simp [hasRateCall, Bool.or_assoc]
    · rw [h3, g3]
      simp [hasTryStmt, Bool.or_assoc]

theorem visitStmts_no_reg (s : VState) (stmts : List PyStmt)
    (h : stmts.all (fun st => !(isStrInitCall st)) = true) :
    (visitStmts s stmts).current_node = s.current_node ∧
    (visitStmts s stmts).model = s.model := by
  have he : ({ s with current_node := s.current_node, model := s.model } : VState) = s := rfl
  have := visitStmts_update s s.current_node s.model stmts h
  rw [he] at this
  rw [this]
  exact ⟨rfl, rfl⟩

theorem add_service_warnings (m : RosModel) (t : PyConst) (ty n : String) (b : Bool) :
    (m.add_service t ty n b).warnings = m.warnings := by
  cases hg : dictGet m.services t with
  | none => cases b <;> simp [RosModel.add_service, hg, dictGet_dictSet_self]
  | some info =>
    cases b with
    | true => by_cases hn : n ∈ info.servers <;> simp [RosModel.add_service, hg, hn]
    | false => by_cases hn : n ∈ info.clients <;> simp [RosModel.add_service, hg, hn]

theorem add_param_warnings (m : RosModel) (p : PyConst) :
    (m.add_param p).warnings = m.warnings := rfl

theorem foldl_pubs_warnings (l : List (PyConst × String)) (m : RosModel) (n : String) :
    (l.foldl (fun m tm => m.add_pub tm.1 tm.2 n) m).warnings = m.warnings := by
  induction l generalizing m with
  | nil => rfl
  | cons a rest ih => rw [List.foldl_cons, ih, add_pub_warnings]

theorem foldl_subs_warnings (l : List (PyConst × String)) (m : RosModel) (n : String) :
    (l.foldl (fun m tm => m.add_sub tm.1 tm.2 n) m).warnings = m.warnings := by
  induction l generalizing m with
  | nil => rfl
  | cons a rest ih => rw [List.foldl_cons, ih, add_sub_warnings]

theorem foldl_services_warnings (l : List (PyConst × String × Bool)) (m : RosModel) (n : String) :
    (l.foldl (fun m sv => m.add_service sv.1 sv.2.1 n sv.2.2) m).warnings = m.warnings := by
  induction l generalizing m with
  | nil => rfl
  | cons a rest ih => rw [List.foldl_cons, ih, add_service_warnings]

theorem foldl_params_warnings (l : List PyConst) (m : RosModel) :
    (l.foldl (fun m p => m.add_param p) m).warnings = m.warnings := by
  induction l generalizing m with
  | nil => rfl
  | cons a rest ih => rw [List.foldl_cons, ih, add_param_warnings]

theorem finalize_warnings (s : VState) (n : String) (hn : s.current_node = some n)
    (hne : n ≠ "") :
    (finalize s).warnings = s.model.warnings
      ++ (if s.has_rate then [] else [rateWarning n])
      ++ (if s.has_try then [] else [tryWarning n]) := by
  unfold finalize
  rw [hn]
  simp only [hne, if_false]
  cases hr : s.has_rate <;> cases ht : s.has_try <;>
    simp [hr, ht, foldl_pubs_warnings, foldl_subs_warnings, foldl_services_warnings,
      foldl_params_warnings, List.append_assoc]

/-- C6: for every scripting-language file that establishes a node
identity via `init_node` (the visitor ends with a recorded, nonempty
current node name — the empty string is falsy in the source's
`if not self.current_node` check), finalization appends the missing-rate
diagnostic exactly when the file contains no rate-limiting constructor
call and the no-error-handling diagnostic exactly when it contains no
exception-handling block — two diagnostics when both are absent, zero
when both are present, each gated independently by its own flag. -/
theorem C6_diagnostics_gated (stmts : List PyStmt) (m : RosModel) (fp n : String)
    (hn : (visitStmts (initVState m fp) stmts).current_node = some n)
    (hne : n ≠ "") :
    (finalize (visitStmts (initVState m fp) stmts)).warnings
      = (visitStmts (initVState m fp) stmts).model.warnings
        ++ (if hasRateCall stmts then [] else [rateWarning n])
        ++ (if hasTryStmt stmts then [] else [tryWarning n]) := by
  obtain ⟨-, h2, h3⟩ := visitStmts_flags (initVState m fp) stmts
  rw [finalize_warnings _ n hn hne, h2, h3]
  simp [initVState]

/-- Witness for C6 at a concrete input: a file with just
`rospy.init_node("talker")` (no rate limiter, no try block) gets exactly
the two diagnostics. -/
theorem C6_diagnostics_gated_witness :
    (visitStmts (initVState RosModel.empty "talker.py")
        [initNodeStmt "talker"]).current_node = some "talker" ∧
    "talker" ≠ "" ∧
    (finalize (visitStmts (initVState RosModel.empty "talker.py") [initNodeStmt "talker"])).warnings
      = (visitStmts (initVState RosModel.empty "talker.py") [initNodeStmt "talker"]).model.warnings
        ++ (if hasRateCall [initNodeStmt "talker"] then [] else [rateWarning "talker"])
        ++ (if hasTryStmt [initNodeStmt "talker"] then [] else [tryWarning "talker"]) :=
  ⟨rfl, by decide, C6_diagnostics_gated [initNodeStmt "talker"] RosModel.empty "talker.py"
    "talker" rfl (by decide)⟩

/-- C7: a scripting-language file containing no `init_node` call with a
literal string first argument leaves the model completely unchanged — no
Node entity, no publish/subscribe/service/parameter facts and no
diagnostics — because its collected facts are discarded at finalization
(node identity gates everything else). -/
theorem C7_no_identity_discards_all (fp : String) (fc : FileContent) (stmts : List PyStmt)
    (m : RosModel) (hok : fc.py = PyOutcome.ok stmts)
    (hno : stmts.all (fun st => !(isStrInitCall st)) = true) :
    parse_python_ros_file fp fc m = m := by
  unfold parse_python_ros_file
  rw [hok]
  split
  · rfl
  · obtain ⟨h1, h2⟩ := visitStmts_no_reg (initVState m fp) stmts hno
    have h1x : (visitStmts (initVState m fp) stmts).current_node = none := by rw [h1]; rfl
    have h2x : (visitStmts (initVState m fp) stmts).model = m := by rw [h2]; rfl
    simp [finalize, h1x, h2x]

/-- Witness for C7 at a concrete input: a file with only a
`rospy.Publisher` call and no node identity contributes nothing. -/
theorem C7_no_identity_discards_all_witness :
    (⟨false, PyOutcome.ok [PyStmt.call (.attrName "rospy" "Publisher")
        [.const (.str "/chatter"), .nameE "String"]], [], LaunchOutcome.ok []⟩ :
      FileContent).py
      = PyOutcome.ok [PyStmt.call (.attrName "rospy" "Publisher")
          [.const (.str "/chatter"), .nameE "String"]] ∧
    ([PyStmt.call (.attrName "rospy" "Publisher")
        [.const (.str "/chatter"), .nameE "String"]].all
      (fun st => !(isStrInitCall st)) = true) ∧
    parse_python_ros_file "orphan.py"
        ⟨false, PyOutcome.ok [PyStmt.call (.attrName "rospy" "Publisher")
            [.const (.str "/chatter"), .nameE "String"]], [], LaunchOutcome.ok []⟩
        RosModel.empty
      = RosModel.empty :=
  ⟨rfl, by decide, C7_no_identity_discards_all "orphan.py" _ _ RosModel.empty rfl (by decide)⟩

/-- C10: for a scripting-language file that establishes a node identity,
facts occurring textually before the `init_node` call are attributed to
that node at finalization exactly like facts occurring after it: the
model produced from a file whose fact statements `F` all precede the
`init_node` call equals the model produced when they all follow it —
attribution depends only on the identity existing at end of file, not on
position. -/
theorem C10_attribution_position_independent (fp : String) (fc : FileContent)
    (F : List PyStmt) (n : String) (m : RosModel)
    (hF : F.all (fun st => !(isStrInitCall st)) = true) :
    parse_python_ros_file fp { fc with py := PyOutcome.ok (F ++ [initNodeStmt n]) } m
      = parse_python_ros_file fp { fc with py := PyOutcome.ok (initNodeStmt n :: F) } m := by
  have key : visitStmts (initVState m fp) (F ++ [initNodeStmt n])
      = visitStmts (initVState m fp) (initNodeStmt n :: F) := by
    obtain ⟨hcn, hmod⟩ := visitStmts_no_reg (initVState m fp) F hF
    have hfp : (visitStmts (initVState m fp) F).filepath = (initVState m fp).filepath :=
      (visitStmts_flags (initVState m fp) F).1
    calc visitStmts (initVState m fp) (F ++ [initNodeStmt n])
        = visitStmt (visitStmts (initVState m fp) F) (initNodeStmt n) := by
          simp [visitStmts, List.foldl_append]
      _ = { visitStmts (initVState m fp) F with
            current_node := some n
            model := ((visitStmts (initVState m fp) F).model.add_node n
              (visitStmts (initVState m fp) F).filepath) } := rfl
      _ = { visitStmts (initVState m fp) F with
            current_node := some n
            model := ((initVState m fp).model.add_node n (initVState m fp).filepath) } := by
          rw [hmod, hfp]
      _ = visitStmts { initVState m fp with
            current_node := some n
            model := ((initVState m fp).model.add_node n (initVState m fp).filepath) } F :=
          (visitStmts_update (initVState m fp) _ _ F hF).symm
      _ = visitStmts (initVState m fp) (initNodeStmt n :: F) := by
          rw [visitStmts_cons]
          rfl
  unfold parse_python_ros_file
  rw [show ({ fc with py := PyOutcome.ok (F ++ [initNodeStmt n]) } : FileContent).sniffGenerated
        = fc.sniffGenerated from rfl,
      show ({ fc with py := PyOutcome.ok (initNodeStmt n :: F) } : FileContent).sniffGenerated
        = fc.sniffGenerated from rfl,
      show ({ fc with py := PyOutcome.ok (F ++ [initNodeStmt n]) } : FileContent).py
        = PyOutcome.ok (F ++ [initNodeStmt n]) from rfl,
      show ({ fc with py := PyOutcome.ok (initNodeStmt n :: F) } : FileContent).py
        = PyOutcome.ok (initNodeStmt n :: F) from rfl]
  split
  · rfl
  · simp only [key]

/-- Witness for C10 at a concrete input: a `Publisher` fact before the
`init_node` call yields the same model as after it. -/
theorem C10_attribution_position_independent_witness :
    ([PyStmt.call (.attrName "rospy" "Publisher")
        [.const (.str "/chatter"), .nameE "String"]].all
      (fun st => !(isStrInitCall st)) = true) ∧
    parse_python_ros_file "talker.py"
        ⟨false, PyOutcome.ok ([PyStmt.call (.attrName "rospy" "Publisher")
            [.const (.str "/chatter"), .nameE "String"]] ++ [initNodeStmt "talker"]),
          [], LaunchOutcome.ok []⟩ RosModel.empty
      = parse_python_ros_file "talker.py"
        ⟨false, PyOutcome.ok (initNodeStmt "talker"
            :: [PyStmt.call (.attrName "rospy" "Publisher")
                [.const (.str "/chatter"), .nameE "String"]]),
          [], LaunchOutcome.ok []⟩ RosModel.empty :=
  ⟨by decide, C10_attribution_position_independent "talker.py"
    ⟨false, PyOutcome.ok [], [], LaunchOutcome.ok []⟩
    [PyStmt.call (.attrName "rospy" "Publisher") [.const (.str "/chatter"), .nameE "String"]]
    "talker" RosModel.empty (by decide)⟩

theorem insertionSort_perm_eq (l1 l2 : List String) (h : l1.Perm l2) :
    l1.insertionSort (fun a b => a ≤ b) = l2.insertionSort (fun a b => a ≤ b) := by
  haveI ha := inferInstanceAs (IsAntisymm String (· ≤ ·))
  haveI ht := inferInstanceAs (IsTotal String (· ≤ ·))
  haveI hr := inferInstanceAs (IsTrans String (· ≤ ·))
  exact List.eq_of_perm_of_sorted
    (((List.perm_insertionSort _ l1).trans h).trans (List.perm_insertionSort _ l2).symm)
    (List.sorted_insertionSort _ l1) (List.sorted_insertionSort _ l2)

/-- C9: `parse_project` is deterministic in the directory walk — for a
fixed tree (the same path set with the same contents), any two
enumeration orders of the files yield the same finished model: same Node
list in the same order, equal Topic and Service maps, and the identical
Warning list, because each phase sorts its file list by path string
before processing. -/
theorem C9_parse_deterministic (fc : String → FileContent) (paths1 paths2 : List String)
    (h : paths1.Perm paths2) : parse_project fc paths1 = parse_project fc paths2 := by
  have hs : ((paths1.filter (fun p => sourceExts.any (fun e => strEndsWith p e))).filter
        (fun p => is_relevant_source_file p (fc p).sniffGenerated)).insertionSort
          (fun a b => a ≤ b)
      = ((paths2.filter (fun p => sourceExts.any (fun e => strEndsWith p e))).filter
        (fun p => is_relevant_source_file p (fc p).sniffGenerated)).insertionSort
          (fun a b => a ≤ b) :=
    insertionSort_perm_eq _ _ ((h.filter _).filter _)
  have hl : ((paths1.filter (fun p => strEndsWith p ".launch" || strEndsWith p ".xml")).filter
        (fun p => !(strIn "package.xml" (strLower (fileName p))))).insertionSort
          (fun a b => a ≤ b)
      = ((paths2.filter (fun p => strEndsWith p ".launch" || strEndsWith p ".xml")).filter
        (fun p => !(strIn "package.xml" (strLower (fileName p))))).insertionSort
          (fun a b => a ≤ b) :=
    insertionSort_perm_eq _ _ ((h.filter _).filter _)
  simp only [parse_project]
  rw [hs, hl]

/-- Witness for C9 at a concrete input: two enumeration orders of the
same two files parse to the same model. -/
theorem C9_parse_deterministic_witness :
    (["b.py", "a.py"] : List String).Perm ["a.py", "b.py"] ∧
    parse_project (fun _ => ⟨false, PyOutcome.ok [], [], LaunchOutcome.ok []⟩)
        ["b.py", "a.py"]
      = parse_project (fun _ => ⟨false, PyOutcome.ok [], [], LaunchOutcome.ok []⟩)
        ["a.py", "b.py"] :=
  ⟨by decide, C9_parse_deterministic _ _ _ (by decide)⟩

/-! Lemmas about `processRegs`, the node-registration trace of one parse
pass, used to settle the deduplication-policy claims. -/

theorem find?_eq_head?_filter {α : Type} (p : α → Bool) (l : List α) :
    l.find? p = (l.filter p).head? := by
  induction l with
  | nil => rfl
  | cons a rest ih =>
    by_cases h : p a
    · rw [List.find?_cons_of_pos _ h, List.filter_cons_of_pos h]
      rfl
    · rw [List.find?_cons_of_neg _ h, List.filter_cons_of_neg h, ih]

theorem processRegs_nil (m : RosModel) : processRegs m [] = m := rfl

theorem processRegs_cons (m : RosModel) (r : String × String) (regs : List (String × String)) :
    processRegs m (r :: regs) = processRegs (m.add_node r.1 r.2) regs := rfl

theorem processRegs_append (m : RosModel) (l1 l2 : List (String × String)) :
    processRegs m (l1 ++ l2) = processRegs (processRegs m l1) l2 := by
  simp [processRegs, List.foldl_append]

theorem mem_setAdd {α : Type} [DecidableEq α] (s : List α) (a b : α) :
    b ∈ setAdd s a ↔ b ∈ s ∨ b = a := by
  unfold setAdd
  split_ifs with h
  · constructor
    · exact Or.inl
    · rintro (hb | rfl)
      · exact hb
      · exact h
  · simp [List.mem_append]

theorem add_node_other_filter (m : RosModel) (M f N : String) (hMN : M ≠ N) :
    (m.add_node M f).nodes.filter (fun x => x.name == N)
      = m.nodes.filter (fun x => x.name == N) ∧
    (N ∈ (m.add_node M f).node_names ↔ N ∈ m.node_names) ∧
    ((m.add_node M f).warnings = m.warnings ∨
      ∃ k, (m.add_node M f).warnings = m.warnings ++ [dupWarning M k f]) := by
  have hNM : N ≠ M := Ne.symm hMN
  simp only [RosModel.add_node]
  split_ifs with hmem hl
  · cases hf : m.nodes.find? (fun n => n.name == M) with
    | some e => exact ⟨rfl, Iff.rfl, Or.inl rfl⟩
    | none =>
      refine ⟨?_, ?_, Or.inl rfl⟩
      · simp [List.filter_append, hMN]
      · simp [mem_setAdd, hNM]
  · cases hf : m.nodes.find? (fun n => n.name == M) with
    | some e => exact ⟨rfl, Iff.rfl, Or.inr ⟨e.file, rfl⟩⟩
    | none =>
      refine ⟨?_, ?_, Or.inl rfl⟩
      · simp [List.filter_append, hMN]
      · simp [mem_setAdd, hNM]
  · refine ⟨?_, ?_, Or.inl rfl⟩
    · simp [List.filter_append, hMN]
    · simp [mem_setAdd, hNM]

theorem add_node_launch_warnings (m : RosModel) (n f : String)
    (hl : isLaunchFile f = true) :
    (m.add_node n f).warnings = m.warnings := by
  simp only [RosModel.add_node]
  split_ifs with hmem
  · cases hf : m.nodes.find? (fun x => x.name == n) with
    | some e => rfl
    | none => rfl
  · rfl

theorem processRegs_other (regs : List (String × String)) (m : RosModel) (N : String)
    (hN : ∀ r ∈ regs, r.1 ≠ N) :
    (processRegs m regs).nodes.filter (fun x => x.name == N)
      = m.nodes.filter (fun x => x.name == N) ∧
    (N ∈ (processRegs m regs).node_names ↔ N ∈ m.node_names) ∧
    (∀ w ∈ (processRegs m regs).warnings,
      w ∈ m.warnings ∨ ∃ M k d, M ≠ N ∧ w = dupWarning M k d) := by
  induction regs generalizing m with
  | nil => exact ⟨rfl, Iff.rfl, fun w hw => Or.inl hw⟩
  | cons r rest ih =>
    rw [processRegs_cons]
    obtain ⟨s1, s2, s3⟩ := add_node_other_filter m r.1 r.2 N (hN r (List.mem_cons_self r rest))
    obtain ⟨w1, w2, w3⟩ := ih (m.add_node r.1 r.2)
      (fun x hx => hN x (List.mem_cons_of_mem r hx))
    refine ⟨w1.trans s1, w2.trans s2, ?_⟩
    intro w hw
    rcases w3 w hw with hin | hex
    · rcases s3 with heq | ⟨k, heq⟩
      · exact Or.inl (heq ▸ hin)
      · rw [heq] at hin
        rcases List.mem_append.mp hin with h1 | h2
        · exact Or.inl h1
        · exact Or.inr ⟨r.1, k, r.2, hN r (List.mem_cons_self r rest),
            (List.mem_singleton.mp h2)⟩
    · exact Or.inr hex

theorem processRegs_launch (regs : List (String × String)) (m : RosModel) (N : String)
    (e : NodeInfo) (hlaunch : ∀ r ∈ regs, isLaunchFile r.2 = true)
    (hmem : N ∈ m.node_names)
    (hfil : m.nodes.filter (fun x => x.name == N) = [e]) :
    (processRegs m regs).warnings = m.warnings ∧
    (processRegs m regs).nodes.filter (fun x => x.name == N) = [e] ∧
    N ∈ (processRegs m regs).node_names := by
  induction regs generalizing m with
  | nil => exact ⟨rfl, hfil, hmem⟩
  | cons r rest ih =>
    have hlr : isLaunchFile r.2 = true := hlaunch r (List.mem_cons_self r rest)
    have hrest : ∀ x ∈ rest, isLaunchFile x.2 = true :=
      fun x hx => hlaunch x (List.mem_cons_of_mem r hx)
    rw [processRegs_cons]
    by_cases hrN : r.1 = N
    · subst hrN
      have hf : m.nodes.find? (fun x => x.name == r.1) = some e := by
        rw [find?_eq_head?_filter, hfil]
        rfl
      rw [add_node_dup m r.1 r.2 e hmem hf]
      rw [if_pos hlr]
      exact ih m hrest hmem hfil
    · obtain ⟨s1, s2, s3⟩ := add_node_other_filter m r.1 r.2 N hrN
      have sw : (m.add_node r.1 r.2).warnings = m.warnings :=
        add_node_launch_warnings m r.1 r.2 hlr
      obtain ⟨w1, w2, w3⟩ := ih (m.add_node r.1 r.2) hrest (s2.mpr hmem) (s1.trans hfil)
      exact ⟨w1.trans sw, w2, w3⟩

theorem processRegs_fresh (regs : List (String × String)) (m : RosModel)
    (hnodup : (regs.map Prod.fst).Nodup)
    (hfresh : ∀ r ∈ regs, r.1 ∉ m.node_names) :
    processRegs m regs =
      { m with node_names := m.node_names ++ regs.map Prod.fst
               nodes := m.nodes ++ regs.map (fun r => ⟨r.1, r.2⟩) } := by
  induction regs generalizing m with
  | nil => simp only [processRegs_nil, List.map_nil, List.append_nil]
  | cons r rest ih =>
    rw [processRegs_cons, add_node_fresh m r.1 r.2 (hfresh r (List.mem_cons_self r rest))]
    rw [List.map_cons, List.nodup_cons] at hnodup
    have hfresh2 : ∀ x ∈ rest, x.1 ∉ m.node_names ++ [r.1] := by
      intro x hx
      simp only [List.mem_append, List.mem_singleton]
      rintro (h1 | h2)
      · exact hfresh x (List.mem_cons_of_mem r hx) h1
      · exact hnodup.1 (h2 ▸ List.mem_map_of_mem Prod.fst hx)
    rw [ih _ hnodup.2 hfresh2]
    simp [List.append_assoc]

/-- C1: in any parse pass (modelled by its registration trace: all
source-phase registrations, then all launch-phase registrations) where
exactly one source file registers node name `N` (as the single
source-phase registration `(N, F)`) and launch descriptors may also
declare `N`, the finished model's node list contains exactly one entry
for `N`, whose file is the source file `F`, and every warning produced by
the pass is a duplicate-node warning about some other name — the
launch-descriptor registration of the already-existing name is discarded
silently. -/
theorem C1_source_over_launch (pre post launch : List (String × String)) (N F : String)
    (hpre : ∀ r ∈ pre, r.1 ≠ N) (hpost : ∀ r ∈ post, r.1 ≠ N)
    (hsrc : ∀ r ∈ pre ++ (N, F) :: post, isLaunchFile r.2 = false)
    (hlaunch : ∀ r ∈ launch, isLaunchFile r.2 = true)
    (hdecl : ∃ r ∈ launch, r.1 = N) :
    ((processRegs RosModel.empty (pre ++ (N, F) :: post ++ launch)).nodes.filter
        (fun x => x.name == N) = [⟨N, F⟩]) ∧
    (∀ w ∈ (processRegs RosModel.empty (pre ++ (N, F) :: post ++ launch)).warnings,
      ∃ M k d, M ≠ N ∧ w = dupWarning M k d) := by
  obtain ⟨p1, p2, p3⟩ := processRegs_other pre RosModel.empty N hpre
  set m1 := processRegs RosModel.empty pre with hm1
  have hm1nomem : N ∉ m1.node_names := by
    intro h
    have := p2.mp h
    simp [RosModel.empty] at this
  have hm1fil : m1.nodes.filter (fun x => x.name == N) = [] := p1.trans rfl
  have hstep := add_node_fresh m1 N F hm1nomem
  set m2 := m1.add_node N F with hm2
  have hm2fil : m2.nodes.filter (fun x => x.name == N) = [⟨N, F⟩] := by
    rw [hstep]
    simp [List.filter_append, hm1fil]
  have hm2mem : N ∈ m2.node_names := by
    rw [hstep]
    simp
  have hm2warn : m2.warnings = m1.warnings := by rw [hstep]
  obtain ⟨q1, q2, q3⟩ := processRegs_other post m2 N hpost
  set m3 := processRegs m2 post with hm3
  obtain ⟨l1, l2, l3⟩ := processRegs_launch launch m3 N ⟨N, F⟩ hlaunch (q2.mpr hm2mem)
    (q1.trans hm2fil)
  have hdecomp : processRegs RosModel.empty (pre ++ (N, F) :: post ++ launch)
      = processRegs m3 launch := by
    rw [processRegs_append, processRegs_append, processRegs_cons]
  constructor
  · rw [hdecomp]
    exact l2
  · rw [hdecomp]
    intro w hw
    rw [l1] at hw
    rcases q3 w hw with h1 | hex
    · rw [hm2warn] at h1
      rcases p3 w h1 with h2 | hex2
      · simp [RosModel.empty] at h2
      · exact hex2
    · exact hex

/-- Witness for C1 at a concrete input: one source registration of
`talker` from `talker.py`, one launch registration of `talker` from
`start.launch`. -/
theorem C1_source_over_launch_witness :
    (∀ r ∈ ([] : List (String × String)), r.1 ≠ "talker") ∧
    (∀ r ∈ ([] : List (String × String)), r.1 ≠ "talker") ∧
    (∀ r ∈ ([] : List (String × String)) ++ ("talker", "talker.py")
        :: ([] : List (String × String)), isLaunchFile r.2 = false) ∧
    (∀ r ∈ [("talker", "start.launch")], isLaunchFile r.2 = true) ∧
    (∃ r ∈ [("talker", "start.launch")], r.1 = "talker") ∧
    (((processRegs RosModel.empty (([] : List (String × String))
          ++ ("talker", "talker.py") :: ([] : List (String × String))
          ++ [("talker", "start.launch")])).nodes.filter
        (fun x => x.name == "talker") = [⟨"talker", "talker.py"⟩]) ∧
     (∀ w ∈ (processRegs RosModel.empty (([] : List (String × String))
          ++ ("talker", "talker.py") :: ([] : List (String × String))
          ++ [("talker", "start.launch")])).warnings,
        ∃ M k d, M ≠ "talker" ∧ w = dupWarning M k d)) :=
  ⟨by decide, by decide, by decide, by decide, by decide,
   C1_source_over_launch [] [] [("talker", "start.launch")] "talker" "talker.py"
     (by decide) (by decide) (by decide) (by decide) (by decide)⟩

theorem entries_filter_nil (l : List (String × String)) (N : String)
    (h : ∀ r ∈ l, r.1 ≠ N) :
    (l.map (fun r => (⟨r.1, r.2⟩ : NodeInfo))).filter (fun x => x.name == N) = [] := by
  induction l with
  | nil => rfl
  | cons a rest ih =>
    have ha : ((⟨a.1, a.2⟩ : NodeInfo).name == N) = false := by
      simp [h a (List.mem_cons_self a rest)]
    simp [List.filter_cons, ha, ih (fun x hx => h x (List.mem_cons_of_mem a hx))]

/-- C2: in any parse pass (modelled by its registration trace, source
phase before launch phase, the source phase in sorted-file order) where
two distinct source files `F1` and `F2` each register the same node name
`N` — `F1`'s registration first, i.e. `F1` is the file that sorts first
by path string — and the other source registrations carry pairwise
distinct names different from `N`, the finished node list contains
exactly one entry for `N` whose file is `F1` (the existing entity is not
mutated), and the warning list is exactly one entry: the duplicate-node
warning naming both the kept file `F1` and the discarded file `F2`. -/
theorem C2_source_duplicate_conflict (pre mid post launch : List (String × String))
    (N F1 F2 : String) (hFF : F1 ≠ F2)
    (hoth : ∀ r ∈ pre ++ mid ++ post, r.1 ≠ N)
    (hnodup : ((pre ++ mid ++ post).map Prod.fst).Nodup)
    (hsrc : ∀ r ∈ pre ++ (N, F1) :: mid ++ (N, F2) :: post, isLaunchFile r.2 = false)
    (hlaunch : ∀ r ∈ launch, isLaunchFile r.2 = true) :
    ((processRegs RosModel.empty
        (pre ++ (N, F1) :: mid ++ (N, F2) :: post ++ launch)).nodes.filter
        (fun x => x.name == N) = [⟨N, F1⟩]) ∧
    ((processRegs RosModel.empty
        (pre ++ (N, F1) :: mid ++ (N, F2) :: post ++ launch)).warnings
      = [dupWarning N F1 F2]) := by
  have hpreN : ∀ r ∈ pre, r.1 ≠ N := fun r hr => hoth r (by simp [hr])
  have hmidN : ∀ r ∈ mid, r.1 ≠ N := fun r hr => hoth r (by simp [hr])
  have hpostN : ∀ r ∈ post, r.1 ≠ N := fun r hr => hoth r (by simp [hr])
  simp only [List.map_append, List.nodup_append] at hnodup
  obtain ⟨⟨hnp, hnm, hdpm⟩, hnpost, hdps⟩ := hnodup
  have hF2 : isLaunchFile F2 = false := hsrc (N, F2) (by simp)
  have e1 : processRegs RosModel.empty pre
      = ⟨pre.map (fun r => (⟨r.1, r.2⟩ : NodeInfo)), pre.map Prod.fst, [], [], [], []⟩ := by
    rw [processRegs_fresh pre RosModel.empty hnp
      (fun r _ => by simp [RosModel.empty])]
    simp [RosModel.empty]
  have hNpre : N ∉ pre.map Prod.fst := by
    intro h
    obtain ⟨r, hr, hrN⟩ := List.mem_map.mp h
    exact hpreN r hr hrN
  have e2 : (processRegs RosModel.empty pre).add_node N F1
      = ⟨pre.map (fun r => (⟨r.1, r.2⟩ : NodeInfo)) ++ [(⟨N, F1⟩ : NodeInfo)],
         pre.map Prod.fst ++ [N], [], [], [], []⟩ := by
    rw [e1, add_node_fresh _ N F1 hNpre]
  have hmidfresh : ∀ r ∈ mid, r.1 ∉ pre.map Prod.fst ++ [N] := by
    intro r hr
    simp only [List.mem_append, List.mem_singleton]
    rintro (h1 | h2)
    · exact hdpm h1 (List.mem_map_of_mem Prod.fst hr)
    · exact hmidN r hr h2
  have e3 : processRegs ((processRegs RosModel.empty pre).add_node N F1) mid
      = ⟨(pre.map (fun r => (⟨r.1, r.2⟩ : NodeInfo)) ++ [(⟨N, F1⟩ : NodeInfo)])
            ++ mid.map (fun r => (⟨r.1, r.2⟩ : NodeInfo)),
         (pre.map Prod.fst ++ [N]) ++ mid.map Prod.fst, [], [], [], []⟩ := by
    rw [e2, processRegs_fresh mid _ hnm hmidfresh]
  have hmem3 : N ∈ (pre.map Prod.fst ++ [N]) ++ mid.map Prod.fst := by simp
  have hfind3 : ((pre.map (fun r => (⟨r.1, r.2⟩ : NodeInfo)) ++ [(⟨N, F1⟩ : NodeInfo)])
        ++ mid.map (fun r => (⟨r.1, r.2⟩ : NodeInfo))).find? (fun x => x.name == N)
      = some ⟨N, F1⟩ := by
    rw [find?_eq_head?_filter, List.filter_append, List.filter_append,
      entries_filter_nil pre N hpreN, entries_filter_nil mid N hmidN]
    simp
  have e4 : (processRegs ((processRegs RosModel.empty pre).add_node N F1) mid).add_node N F2
      = ⟨(pre.map (fun r => (⟨r.1, r.2⟩ : NodeInfo)) ++ [(⟨N, F1⟩ : NodeInfo)])
            ++ mid.map (fun r => (⟨r.1, r.2⟩ : NodeInfo)),
         (pre.map Prod.fst ++ [N]) ++ mid.map Prod.fst, [], [], [],
         [dupWarning N F1 F2]⟩ := by
    rw [e3, add_node_dup _ N F2 ⟨N, F1⟩ hmem3 hfind3, if_neg (by simp [hF2])]
    rfl
  have hpostfresh : ∀ r ∈ post, r.1 ∉ (pre.map Prod.fst ++ [N]) ++ mid.map Prod.fst := by
    intro r hr
    have hrpost : r.1 ∈ post.map Prod.fst := List.mem_map_of_mem Prod.fst hr
    simp only [List.mem_append, List.mem_singleton]
    rintro ((h1 | h2) | h3)
    · exact hdps (List.mem_append_left _ h1) hrpost
    · exact hpostN r hr h2
    · exact hdps (List.mem_append_right _ h3) hrpost
  have e5 : processRegs
        ((processRegs ((processRegs RosModel.empty pre).add_node N F1) mid).add_node N F2)
        post
      = ⟨((pre.map (fun r => (⟨r.1, r.2⟩ : NodeInfo)) ++ [(⟨N, F1⟩ : NodeInfo)])
            ++ mid.map (fun r => (⟨r.1, r.2⟩ : NodeInfo)))
            ++ post.map (fun r => (⟨r.1, r.2⟩ : NodeInfo)),
         ((pre.map Prod.fst ++ [N]) ++ mid.map Prod.fst) ++ post.map Prod.fst,
         [], [], [], [dupWarning N F1 F2]⟩ := by
    rw [e4, processRegs_fresh post _ hnpost hpostfresh]
  have hmem5 : N ∈ ((pre.map Prod.fst ++ [N]) ++ mid.map Prod.fst) ++ post.map Prod.fst := by
    simp
  have hfil5 : (((pre.map (fun r => (⟨r.1, r.2⟩ : NodeInfo)) ++ [(⟨N, F1⟩ : NodeInfo)])
          ++ mid.map (fun r => (⟨r.1, r.2⟩ : NodeInfo)))
          ++ post.map (fun r => (⟨r.1, r.2⟩ : NodeInfo))).filter
        (fun x => x.name == N) = [(⟨N, F1⟩ : NodeInfo)] := by
    rw [List.filter_append, List.filter_append, List.filter_append,
      entries_filter_nil pre N hpreN, entries_filter_nil mid N hmidN,
      entries_filter_nil post N hpostN]
    simp
  obtain ⟨l1, l2, l3⟩ := processRegs_launch launch
    ⟨((pre.map (fun r => (⟨r.1, r.2⟩ : NodeInfo)) ++ [(⟨N, F1⟩ : NodeInfo)])
        ++ mid.map (fun r => (⟨r.1, r.2⟩ : NodeInfo)))
        ++ post.map (fun r => (⟨r.1, r.2⟩ : NodeInfo)),
     ((pre.map Prod.fst ++ [N]) ++ mid.map Prod.fst) ++ post.map Prod.fst,
     [], [], [], [dupWarning N F1 F2]⟩
    N ⟨N, F1⟩ hlaunch hmem5 hfil5
  have hdecomp : processRegs RosModel.empty
        (pre ++ (N, F1) :: mid ++ (N, F2) :: post ++ launch)
      = processRegs (processRegs
          ((processRegs ((processRegs RosModel.empty pre).add_node N F1) mid).add_node N F2)
          post) launch := by
    simp only [processRegs_append, processRegs_cons]
  constructor
  · rw [hdecomp, e5]
    exact l2
  · rw [hdecomp, e5]
    rw [l1]

/-- Witness for C2 at a concrete input: `a.py` and `b.py` both register
`talker`; the first entry is kept and exactly one duplicate warning names
both files. -/
theorem C2_source_duplicate_conflict_witness :
    ("a.py" ≠ "b.py") ∧
    (∀ r ∈ ([] : List (String × String)) ++ ([] : List (String × String))
        ++ ([] : List (String × String)), r.1 ≠ "talker") ∧
    (((([] : List (String × String)) ++ ([] : List (String × String))
        ++ ([] : List (String × String))).map Prod.fst).Nodup) ∧
    (∀ r ∈ ([] : List (String × String)) ++ ("talker", "a.py")
        :: ([] : List (String × String)) ++ ("talker", "b.py")
        :: ([] : List (String × String)), isLaunchFile r.2 = false) ∧
    (∀ r ∈ ([] : List (String × String)), isLaunchFile r.2 = true) ∧
    (((processRegs RosModel.empty (([] : List (String × String)) ++ ("talker", "a.py")
          :: ([] : List (String × String)) ++ ("talker", "b.py")
          :: ([] : List (String × String)) ++ ([] : List (String × String)))).nodes.filter
        (fun x => x.name == "talker") = [⟨"talker", "a.py"⟩]) ∧
     ((processRegs RosModel.empty (([] : List (String × String)) ++ ("talker", "a.py")
          :: ([] : List (String × String)) ++ ("talker", "b.py")
          :: ([] : List (String × String)) ++ ([] : List (String × String)))).warnings
        = [dupWarning "talker" "a.py" "b.py"])) :=
  ⟨by decide, by decide, by decide, by decide, by decide,
   C2_source_duplicate_conflict [] [] [] [] "talker" "a.py" "b.py"
     (by decide) (by decide) (by decide) (by decide) (by decide)⟩
